import Mathlib

/-!
Verification of the version-resolution logic of `duckdb_helpers.py`.

The function `_find_extension_binary` scans an extensions base directory
(`~/.duckdb/extensions/stps`) for version-named subdirectories (directories
whose name starts with `v`), sorts them by descending string comparison of
the name, and returns the artifact path inside the first one that contains
the file `stps.duckdb_extension`.  `get_duckdb_connection` falls back to the
hard-coded path `v1.4.3/stps.duckdb_extension` when the scan finds nothing.

The filesystem is modelled as the data the code observes: whether the base
directory exists, and for each direct child its name, whether it is a
directory, and which file names exist directly inside it.  Python compares
strings lexicographically by Unicode code point; that comparison is embedded
here as structural recursion over the strings' character lists (Lean's own
`String` order is implemented with well-founded recursion over byte
iterators, which the kernel cannot evaluate).
-/

namespace DuckdbHelpers

/-- Python's string comparison `a < b`: lexicographic by Unicode code
point. -/
def charsLt : List Char → List Char → Bool
  | [], [] => false
  | [], _ :: _ => true
  | _ :: _, [] => false
  | a :: as, b :: bs =>
      if a.toNat < b.toNat then true
      else if b.toNat < a.toNat then false
      else charsLt as bs

/-- Python's `a < b` on strings. -/
def pyLt (a b : String) : Bool := charsLt a.data b.data

/-- Python's `a <= b` on strings: the negation of `b < a`, as in any total
order. -/
def pyLe (a b : String) : Bool := !(pyLt b a)

/-- Python's `s.startswith(pat)`: the second list is a code-point prefix of
the first. -/
def charsStartsWith : List Char → List Char → Bool
  | _, [] => true
  | [], _ :: _ => false
  | c :: cs, p :: ps => (c.toNat == p.toNat) && charsStartsWith cs ps

/-- Python's `s.startswith(pat)` on strings. -/
def pyStartsWith (s pat : String) : Bool := charsStartsWith s.data pat.data

/-- String equality by code points (Python's `==` on strings). -/
def strEq (a b : String) : Bool := a.data == b.data

/-- One direct child of the extensions base directory, as observed through
`iterdir`: its name, whether it is a directory (`is_dir`), and the names of
the entries that exist directly inside it (so that `(d / f).exists()` is
modelled by membership of `f` in `files`). -/
structure DirEntry where
  name : String
  isDir : Bool
  files : List String
deriving Repr, DecidableEq

/-- The extensions base directory passed to `_find_extension_binary`:
whether it exists, and its direct children in directory-listing order. -/
structure BaseDir where
  exists' : Bool
  entries : List DirEntry
deriving Repr, DecidableEq

/-- The artifact filename hard-coded at line 150 of `duckdb_helpers.py`. -/
def artifactName : String := "stps.duckdb_extension"

/-- The predicate of the list comprehension at lines 138-141:
`d.is_dir() and d.name.startswith('v')`. -/
def isVersionDir (d : DirEntry) : Bool :=
  d.isDir && pyStartsWith d.name "v"

/-- The list comprehension at lines 138-141: the children kept as version
directories, in listing order. -/
def versionDirs (base : BaseDir) : List DirEntry :=
  base.entries.filter isVersionDir

/-- The order used by `version_dirs.sort(reverse=True)` at line 147: sibling
paths compare exactly as their final name components compare as strings, and
`reverse=True` makes the sort descending, so the sort is by this
greater-or-equal relation on names. -/
def nameGE (a b : DirEntry) : Prop := pyLe b.name a.name = true

instance : DecidableRel nameGE :=
  fun a b => inferInstanceAs (Decidable (pyLe b.name a.name = true))

/-- The sort at line 147, `version_dirs.sort(reverse=True)`: a stable
descending sort by name. -/
def sortVersionDirs (l : List DirEntry) : List DirEntry :=
  List.insertionSort nameGE l

/-- Whether the artifact file exists directly inside `d`: the check
`(version_dir / 'stps.duckdb_extension').exists()` at lines 150-151. -/
def hasArtifact (d : DirEntry) : Bool :=
  d.files.any (fun f => strEq f artifactName)

/-- The loop at lines 149-152: walk the sorted list and return, for the
first directory whose artifact file exists, the pair (version directory
name, artifact filename) standing for the path `base/<name>/<artifact>`. -/
def findInSorted : List DirEntry → Option (String × String)
  | [] => none
  | d :: ds => if hasArtifact d then some (d.name, artifactName) else findInSorted ds

/-- The function `_find_extension_binary` of `duckdb_helpers.py`
(lines 120-154): `None` when the base directory does not exist, `None` when
no child is a version directory, otherwise the first artifact found in the
descending-sorted version directories. -/
def find_extension_binary (base : BaseDir) : Option (String × String) :=
  if !base.exists' then none
  else
    let version_dirs := versionDirs base
    if version_dirs.isEmpty then none
    else findInSorted (sortVersionDirs version_dirs)

/-- Modelled from the spec's words (section 4.1, operation `resolve`), for
comparison with `find_extension_binary`: keep the version-named
subdirectories, order them by descending lexicographic comparison of the
full tag string, and return the first in that order whose artifact exists
as a direct child, or NotFound (`none`). -/
def resolveSpec (base : BaseDir) : Option (String × String) :=
  if !base.exists' then none
  else
    ((sortVersionDirs (versionDirs base)).find? hasArtifact).map
      (fun d => (d.name, artifactName))

/-- Whether the path `base/<p.1>/<p.2>` exists in the modelled filesystem:
the base directory exists and has a directory child named `p.1` inside
which the file `p.2` exists. -/
def pathExists (base : BaseDir) (p : String × String) : Bool :=
  base.exists' &&
    base.entries.any
      (fun d => strEq d.name p.1 && d.isDir && d.files.any (fun f => strEq f p.2))

/-! Order-theoretic facts about the Python string comparison, giving the
total-preorder structure the sort lemmas need. -/

lemma charsLt_asymm : ∀ as bs, charsLt as bs = true → charsLt bs as = false := by
  intro as
  induction as with
  | nil =>
      intro bs h
      cases bs with
      | nil => simp [charsLt] at h
      | cons b bs => simp [charsLt]
  | cons a as ih =>
      intro bs h
      cases bs with
      | nil => simp [charsLt] at h
      | cons b bs =>
          simp only [charsLt] at h ⊢
          by_cases hab : a.toNat < b.toNat
          · have hba : ¬ b.toNat < a.toNat := by omega
            simp [hab, hba]
          · by_cases hba : b.toNat < a.toNat
            · simp [hab, hba] at h
            · simp [hab, hba] at h ⊢
              exact ih bs h

lemma charsLt_neg_trans :
    ∀ as bs cs, charsLt as bs = false → charsLt bs cs = false →
      charsLt as cs = false := by
  intro as
  induction as with
  | nil =>
      intro bs cs h1 h2
      cases bs with
      | nil => exact h2
      | cons b bs => simp [charsLt] at h1
  | cons a as ih =>
      intro bs cs h1 h2
      cases bs with
      | nil =>
          cases cs with
          | nil => simp [charsLt]
          | cons c cs => simp [charsLt] at h2
      | cons b bs =>
          cases cs with
          | nil => simp [charsLt]
          | cons c cs =>
              simp only [charsLt] at h1 h2 ⊢
              by_cases hab : a.toNat < b.toNat
              · simp [hab] at h1
              · by_cases hbc : b.toNat < c.toNat
                · simp [hbc] at h2
                · by_cases hac : a.toNat < c.toNat
                  · omega
                  · by_cases hca : c.toNat < a.toNat
                    · simp [hac, hca]
                    · have hba : ¬ b.toNat < a.toNat := by omega
                      have hcb : ¬ c.toNat < b.toNat := by omega
                      simp [hab, hba] at h1
                      simp [hbc, hcb] at h2
                      simp [hac, hca]
                      exact ih bs cs h1 h2

lemma pyLe_total (a b : String) : pyLe a b = true ∨ pyLe b a = true := by
  simp only [pyLe, pyLt, Bool.not_eq_true']
  cases h : charsLt b.data a.data with
  | false => exact Or.inl rfl
  | true => exact Or.inr (charsLt_asymm _ _ h)

lemma pyLe_trans {a b c : String} (h1 : pyLe a b = true) (h2 : pyLe b c = true) :
    pyLe a c = true := by
  simp only [pyLe, pyLt, Bool.not_eq_true'] at h1 h2 ⊢
  exact charsLt_neg_trans _ _ _ h2 h1

instance : IsTotal DirEntry nameGE :=
  ⟨fun a b => pyLe_total b.name a.name⟩

instance : IsTrans DirEntry nameGE :=
  ⟨fun _ _ _ hab hbc => pyLe_trans hbc hab⟩

lemma nameGE_of_not (a b : DirEntry) (h : ¬ nameGE a b) : nameGE b a := by
  rcases pyLe_total b.name a.name with h' | h'
  · exact absurd h' h
  · exact h'

/-! The sorted scan is the head of the artifact-containing sublist, and
filtering commutes with the stable sort; together these turn
`find_extension_binary` into a shape all the claims can be read off. -/

lemma findInSorted_eq_filter_head (l : List DirEntry) :
    findInSorted l =
      (l.filter hasArtifact).head?.map (fun d => (d.name, artifactName)) := by
  induction l with
  | nil => rfl
  | cons d ds ih =>
      by_cases h : hasArtifact d = true
      · simp [findInSorted, List.filter_cons, h]
      · simp [findInSorted, List.filter_cons, h, ih]

lemma find?_eq_filter_head (p : DirEntry → Bool) (l : List DirEntry) :
    l.find? p = (l.filter p).head? := by
  induction l with
  | nil => rfl
  | cons d ds ih =>
      by_cases h : p d = true
      · rw [List.find?_cons_of_pos _ h]
        simp [List.filter_cons, h]
      · rw [List.find?_cons_of_neg _ (by simp [h])]
        rw [List.filter_cons, if_neg h, ih]

lemma orderedInsert_eq_cons (a : DirEntry) (L : List DirEntry)
    (h : ∀ c ∈ L, nameGE a c) : List.orderedInsert nameGE a L = a :: L := by
  cases L with
  | nil => rfl
  | cons c L => simp [List.orderedInsert, h c (List.mem_cons_self c L)]

lemma filter_orderedInsert (p : DirEntry → Bool) (a : DirEntry) :
    ∀ S : List DirEntry, List.Sorted nameGE S →
      (List.orderedInsert nameGE a S).filter p =
        if p a then List.orderedInsert nameGE a (S.filter p) else S.filter p := by
  intro S
  induction S with
  | nil =>
      intro _
      by_cases hpa : p a = true
      · simp [List.orderedInsert, hpa]
      · simp [List.orderedInsert, hpa]
  | cons b S ih =>
      intro hsorted
      rw [List.sorted_cons] at hsorted
      obtain ⟨hb, hS⟩ := hsorted
      by_cases hab : nameGE a b
      · rw [List.orderedInsert, if_pos hab]
        by_cases hpa : p a = true
        · by_cases hpb : p b = true
          · simp [List.filter_cons, hpa, hpb, List.orderedInsert, hab]
          · simp only [List.filter_cons, hpa, hpb, if_pos, if_neg, Bool.false_eq_true,
              ite_true, ite_false]
            rw [orderedInsert_eq_cons]
            intro c hc
            exact pyLe_trans (hb c (List.mem_of_mem_filter hc)) hab
        · simp [List.filter_cons, hpa]
      · rw [List.orderedInsert, if_neg hab]
        by_cases hpa : p a = true
        · by_cases hpb : p b = true
          · simp [List.filter_cons, hpb, hpa, ih hS, List.orderedInsert, hab]
          · simp [List.filter_cons, hpb, hpa, ih hS]
        · by_cases hpb : p b = true
          · simp [List.filter_cons, hpb, hpa, ih hS]
          · simp [List.filter_cons, hpb, hpa, ih hS]

lemma filter_insertionSort (p : DirEntry → Bool) (l : List DirEntry) :
    (List.insertionSort nameGE l).filter p =
      List.insertionSort nameGE (l.filter p) := by
  induction l with
  | nil => rfl
  | cons a l ih =>
      have hs : List.Sorted nameGE (List.insertionSort nameGE l) :=
        List.sorted_insertionSort nameGE l
      rw [List.insertionSort, filter_orderedInsert p a _ hs, List.filter_cons]
      by_cases hpa : p a = true
      · simp [hpa, ih, List.insertionSort]
      · simp [hpa, ih]

/-- The shape of the resolver's result: nothing when the base directory is
absent, otherwise the largest-named artifact-containing version directory,
as the head of the descending sort of the artifact-containing version
directories. -/
lemma find_eq_sorted_filter (base : BaseDir) :
    find_extension_binary base =
      if base.exists' then
        (sortVersionDirs ((versionDirs base).filter hasArtifact)).head?.map
          (fun d => (d.name, artifactName))
      else none := by
  unfold find_extension_binary
  by_cases hex : base.exists' = true
  · simp only [hex, Bool.not_true, Bool.false_eq_true, if_neg, ite_false, ite_true]
    by_cases hemp : (versionDirs base).isEmpty = true
    · rw [List.isEmpty_iff] at hemp
      simp [hemp, sortVersionDirs]
    · simp only [hemp, Bool.false_eq_true, ite_false]
      rw [findInSorted_eq_filter_head, sortVersionDirs, sortVersionDirs,
        filter_insertionSort]
  · simp [Bool.eq_false_iff.mpr hex]

/-! The caller `get_duckdb_connection` (lines 89-102): when the scan returns
`None` it falls back to the hard-coded path
`extensions_base / 'v1.4.3' / 'stps.duckdb_extension'`, checks that path
with `ext_path.exists()`, loads it when present and raises
`FileNotFoundError` otherwise. -/

/-- The outcome of the path-selection logic of `get_duckdb_connection`:
either the path handed to the `LOAD` statement, or the
`FileNotFoundError` of lines 96-102. -/
inductive ConnResult where
  | loaded (p : String × String)
  | fileNotFound
deriving Repr, DecidableEq

/-- The hard-coded fallback version directory of line 93. -/
def fallbackVersion : String := "v1.4.3"

/-- The hard-coded fallback path of line 93, relative to the extensions
base directory. -/
def fallbackPath : String × String := (fallbackVersion, artifactName)

/-- The home-relative components of the extensions base directory of
line 86: `~/.duckdb/extensions/stps`. -/
def extensionsBaseParts : List String := [".duckdb", "extensions", "stps"]

/-- The full home-relative path a base-relative pair stands for. -/
def fullPathParts (p : String × String) : List String :=
  extensionsBaseParts ++ [p.1, p.2]

/-- Lines 89-102 of `duckdb_helpers.py`: auto-detect the binary; on `None`
fall back to the hard-coded path.  `fallbackOnDisk` is the result of the
`ext_path.exists()` call at line 95 on the fallback path, a separate
filesystem observation made only in the fallback branch. -/
def get_duckdb_connection (base : BaseDir) (fallbackOnDisk : Bool) : ConnResult :=
  match find_extension_binary base with
  | some p => ConnResult.loaded p
  | none =>
      if fallbackOnDisk then ConnResult.loaded fallbackPath
      else ConnResult.fileNotFound

/-! An instrumented copy of the resolver that also counts how many
artifact-file existence checks (`ext_path.exists()`, line 151) are
performed, to state that the non-existing-base early return performs
none. -/

/-- The loop of lines 149-152 with a counter of `ext_path.exists()`
calls. -/
def scanCounting : List DirEntry → Option (String × String) × Nat
  | [] => (none, 0)
  | d :: ds =>
      if hasArtifact d then (some (d.name, artifactName), 1)
      else
        let r := scanCounting ds
        (r.1, r.2 + 1)

/-- `find_extension_binary` together with the number of artifact-file
existence checks it performs. -/
def find_extension_binary_counting (base : BaseDir) :
    Option (String × String) × Nat :=
  if !base.exists' then (none, 0)
  else
    let version_dirs := versionDirs base
    if version_dirs.isEmpty then (none, 0)
    else scanCounting (sortVersionDirs version_dirs)

lemma scanCounting_fst (l : List DirEntry) : (scanCounting l).1 = findInSorted l := by
  induction l with
  | nil => rfl
  | cons d ds ih =>
      by_cases h : hasArtifact d = true
      · simp [scanCounting, findInSorted, h]
      · simp [scanCounting, findInSorted, h, ih]

lemma find_extension_binary_counting_fst (base : BaseDir) :
    (find_extension_binary_counting base).1 = find_extension_binary base := by
  unfold find_extension_binary_counting find_extension_binary
  by_cases hex : base.exists' = true
  · by_cases hemp : (versionDirs base).isEmpty = true
    · simp [hex, hemp]
    · simp [hex, hemp, scanCounting_fst]
  · simp [Bool.eq_false_iff.mpr hex]

/-! A state-threaded copy of the resolver, in which every filesystem call
the code makes is an explicit operation on the filesystem state.  The state
type also supports a write operation, which the resolver never uses; the
frame claim is that the state the resolver returns is the state it was
given. -/

/-- Read operation: `extensions_base.exists()` (line 134). -/
def fsExists (s : BaseDir) : Bool × BaseDir := (s.exists', s)

/-- Read operation: `extensions_base.iterdir()` (line 139). -/
def fsIterdir (s : BaseDir) : List DirEntry × BaseDir := (s.entries, s)

/-- Read operation: `d.is_dir()` (line 140). -/
def fsIsDir (d : DirEntry) (s : BaseDir) : Bool × BaseDir := (d.isDir, s)

/-- Read operation: `(version_dir / f).exists()` (line 151). -/
def fsFileExistsIn (d : DirEntry) (f : String) (s : BaseDir) :
    Bool × BaseDir := (d.files.any (fun g => strEq g f), s)

/-- Write operation available on the modelled filesystem state (creating a
file inside a child directory); the resolver performs no call to it. -/
def fsCreateFile (dname f : String) (s : BaseDir) : Unit × BaseDir :=
  ((), ⟨s.exists',
    s.entries.map (fun d =>
      if strEq d.name dname then ⟨d.name, d.isDir, f :: d.files⟩ else d)⟩)

/-- The list comprehension of lines 138-141, state-threaded. -/
def filterVersionDirsST : List DirEntry → BaseDir → List DirEntry × BaseDir
  | [], s => ([], s)
  | d :: ds, s =>
      let r1 := fsIsDir d s
      let r2 := filterVersionDirsST ds r1.2
      (if r1.1 && pyStartsWith d.name "v" then d :: r2.1 else r2.1, r2.2)

/-- The loop of lines 149-152, state-threaded. -/
def scanST : List DirEntry → BaseDir → Option (String × String) × BaseDir
  | [], s => (none, s)
  | d :: ds, s =>
      let r1 := fsFileExistsIn d artifactName s
      if r1.1 then (some (d.name, artifactName), r1.2) else scanST ds r1.2

/-- `_find_extension_binary`, state-threaded through its filesystem
calls. -/
def find_extension_binary_st (s : BaseDir) :
    Option (String × String) × BaseDir :=
  let r1 := fsExists s
  if !r1.1 then (none, r1.2)
  else
    let r2 := fsIterdir r1.2
    let r3 := filterVersionDirsST r2.1 r2.2
    if r3.1.isEmpty then (none, r3.2)
    else scanST (sortVersionDirs r3.1) r3.2

lemma filterVersionDirsST_eq (l : List DirEntry) (s : BaseDir) :
    filterVersionDirsST l s = (l.filter isVersionDir, s) := by
  induction l with
  | nil => rfl
  | cons d ds ih =>
      simp [filterVersionDirsST, fsIsDir, ih, List.filter_cons, isVersionDir]

lemma scanST_eq (l : List DirEntry) (s : BaseDir) :
    scanST l s = (findInSorted l, s) := by
  induction l with
  | nil => rfl
  | cons d ds ih =>
      by_cases h : hasArtifact d = true
      · simp only [scanST, fsFileExistsIn, findInSorted]
        rw [if_pos, if_pos h]
        exact h
      · simp only [scanST, fsFileExistsIn, findInSorted]
        rw [if_neg, if_neg h, ih]
        exact h

/-! A fallible copy of the resolver.  `_find_extension_binary` contains no
`try`/`except`: every filesystem primitive it calls (`exists`, `iterdir`,
`is_dir`, the artifact `exists` check) can raise an `OSError` such as
`PermissionError`, and such an exception propagates out of the function
unchanged.  Each primitive's outcome is modelled as `Except String`, the
error carrying the exception's description, and the function is re-embedded
in the `Except` monad with the calls in the order the Python code makes
them. -/

/-- A direct child as observed through fallible primitives: `is_dir` and
the artifact-existence check can each raise. -/
structure EntryE where
  name : String
  is_dir : Except String Bool
  artifact_exists : Except String Bool

/-- The fallible view of the base directory: the `exists()` call and the
`iterdir()` enumeration can each raise. -/
structure FSE where
  base_exists : Except String Bool
  iterdir : Except String (List EntryE)

/-- Whether a fallible primitive outcome is a normal return. -/
def okB {α : Type} : Except String α → Bool
  | Except.ok _ => true
  | Except.error _ => false

/-- All primitives of one entry return normally. -/
def EntryE.allOk (d : EntryE) : Bool := okB d.is_dir && okB d.artifact_exists

/-- All primitives the filesystem can be asked return normally. -/
def FSE.allOk (fs : FSE) : Bool :=
  okB fs.base_exists &&
    (match fs.iterdir with
     | Except.error _ => false
     | Except.ok l => l.all EntryE.allOk)

/-- The descending sort order on fallible entries, by name as for
`DirEntry`. -/
def nameGEE (a b : EntryE) : Prop := pyLe b.name a.name = true

instance : DecidableRel nameGEE :=
  fun a b => inferInstanceAs (Decidable (pyLe b.name a.name = true))

/-- The list comprehension of lines 138-141 with a fallible `is_dir`: the
first raising entry, in listing order, aborts the comprehension and the
exception propagates. -/
def filterVersionDirsE : List EntryE → Except String (List EntryE)
  | [] => Except.ok []
  | d :: ds =>
      match d.is_dir with
      | Except.error e => Except.error e
      | Except.ok b =>
          match filterVersionDirsE ds with
          | Except.error e => Except.error e
          | Except.ok rest =>
              Except.ok (if b && pyStartsWith d.name "v" then d :: rest else rest)

/-- The loop of lines 149-152 with a fallible artifact-existence check. -/
def scanE : List EntryE → Except String (Option (String × String))
  | [] => Except.ok none
  | d :: ds =>
      match d.artifact_exists with
      | Except.error e => Except.error e
      | Except.ok b =>
          if b then Except.ok (some (d.name, artifactName)) else scanE ds

/-- `_find_extension_binary` over the fallible filesystem: any exception a
reached primitive raises propagates; with no exception the result is the
resolved path or `None`. -/
def find_extension_binaryE (fs : FSE) :
    Except String (Option (String × String)) :=
  match fs.base_exists with
  | Except.error e => Except.error e
  | Except.ok ex =>
      if !ex then Except.ok none
      else
        match fs.iterdir with
        | Except.error e => Except.error e
        | Except.ok items =>
            match filterVersionDirsE items with
            | Except.error e => Except.error e
            | Except.ok vds =>
                if vds.isEmpty then Except.ok none
                else scanE (List.insertionSort nameGEE vds)

lemma filterVersionDirsE_ok_of_allOk (l : List EntryE)
    (h : ∀ d ∈ l, EntryE.allOk d = true) :
    ∃ vds, filterVersionDirsE l = Except.ok vds ∧ ∀ d ∈ vds, d ∈ l := by
  induction l with
  | nil => exact ⟨[], rfl, by simp⟩
  | cons d ds ih =>
      have hd := h d (List.mem_cons_self d ds)
      simp only [EntryE.allOk, Bool.and_eq_true] at hd
      obtain ⟨vds, hvds, hsub⟩ := ih (fun e he => h e (List.mem_cons_of_mem d he))
      cases hdir : d.is_dir with
      | error e => rw [hdir] at hd; simp [okB] at hd
      | ok b =>
          refine ⟨if b && pyStartsWith d.name "v" then d :: vds else vds, ?_, ?_⟩
          · simp [filterVersionDirsE, hdir, hvds]
          · intro e he
            by_cases hb : (b && pyStartsWith d.name "v") = true
            · rw [if_pos hb] at he
              rcases List.mem_cons.mp he with h1 | h1
              · exact h1 ▸ List.mem_cons_self d ds
              · exact List.mem_cons_of_mem d (hsub e h1)
            · rw [if_neg hb] at he
              exact List.mem_cons_of_mem d (hsub e he)

lemma filterVersionDirsE_error (l : List EntryE) (e : String)
    (h : filterVersionDirsE l = Except.error e) :
    ∃ d ∈ l, d.is_dir = Except.error e := by
  induction l with
  | nil => simp [filterVersionDirsE] at h
  | cons d ds ih =>
      cases hdir : d.is_dir with
      | error e' =>
          simp only [filterVersionDirsE, hdir, Except.error.injEq] at h
          subst h
          exact ⟨d, List.mem_cons_self d ds, hdir⟩
      | ok b =>
          simp only [filterVersionDirsE, hdir] at h
          cases hrest : filterVersionDirsE ds with
          | error e' =>
              rw [hrest] at h
              simp only [Except.error.injEq] at h
              subst h
              obtain ⟨d', hd', hde⟩ := ih hrest
              exact ⟨d', List.mem_cons_of_mem d hd', hde⟩
          | ok vds =>
              rw [hrest] at h
              simp at h

lemma scanE_ok_of_allOk (l : List EntryE)
    (h : ∀ d ∈ l, okB d.artifact_exists = true) :
    ∃ r, scanE l = Except.ok r := by
  induction l with
  | nil => exact ⟨none, rfl⟩
  | cons d ds ih =>
      have hd := h d (List.mem_cons_self d ds)
      cases hart : d.artifact_exists with
      | error e => rw [hart] at hd; simp [okB] at hd
      | ok b =>
          cases b with
          | true => exact ⟨some (d.name, artifactName), by simp [scanE, hart]⟩
          | false =>
              obtain ⟨r, hr⟩ := ih (fun e he => h e (List.mem_cons_of_mem d he))
              exact ⟨r, by simp [scanE, hart, hr]⟩

lemma scanE_error (l : List EntryE) (e : String)
    (h : scanE l = Except.error e) :
    ∃ d ∈ l, d.artifact_exists = Except.error e := by
  induction l with
  | nil => simp [scanE] at h
  | cons d ds ih =>
      cases hart : d.artifact_exists with
      | error e' =>
          simp only [scanE, hart, Except.error.injEq] at h
          subst h
          exact ⟨d, List.mem_cons_self d ds, hart⟩
      | ok b =>
          simp only [scanE, hart] at h
          cases b with
          | true => simp at h
          | false =>
              simp only [Bool.false_eq_true, if_false, ite_false] at h
              obtain ⟨d', hd', hde⟩ := ih h
              exact ⟨d', List.mem_cons_of_mem d hd', hde⟩

/-! Small helper lemmas used by the claim theorems. -/

lemma findInSorted_eq_find? (l : List DirEntry) :
    findInSorted l = (l.find? hasArtifact).map (fun d => (d.name, artifactName)) := by
  rw [findInSorted_eq_filter_head, find?_eq_filter_head]

lemma mem_of_head? {l : List DirEntry} {d : DirEntry} (h : l.head? = some d) :
    d ∈ l := by
  cases l with
  | nil => simp at h
  | cons a l =>
      simp only [List.head?_cons, Option.some.injEq] at h
      exact h ▸ List.mem_cons_self a l

lemma strEq_self (s : String) : strEq s s = true := by
  simp [strEq]

/-! The claims. -/

/-- C1: for every existing base directory, the resolver walks the kept
version subdirectories in descending name order and returns the artifact
path inside the first one in which the artifact exists as a direct child —
stated as agreement with the spec-side `resolveSpec`, which is exactly that
walk — and any path it returns exists in the filesystem at the moment of
the check.  (The spec's v1.2.0 / v1.3.0 example is instantiated in the
witness.) -/
theorem c1_resolve_first_in_order (base : BaseDir) (hex : base.exists' = true) :
    find_extension_binary base = resolveSpec base ∧
    (∀ p, find_extension_binary base = some p → pathExists base p = true) := by
  constructor
  · unfold find_extension_binary resolveSpec
    by_cases hemp : (versionDirs base).isEmpty = true
    · rw [List.isEmpty_iff] at hemp
      simp [hex, hemp, sortVersionDirs, findInSorted]
    · simp [hex, hemp, findInSorted_eq_find?]
  · intro p hp
    rw [find_eq_sorted_filter, if_pos hex] at hp
    cases hh : (sortVersionDirs ((versionDirs base).filter hasArtifact)).head? with
    | none => rw [hh] at hp; simp at hp
    | some d =>
        rw [hh] at hp
        simp only [Option.map_some', Option.some.injEq] at hp
        have hd1 : d ∈ sortVersionDirs ((versionDirs base).filter hasArtifact) :=
          mem_of_head? hh
        have hd2 : d ∈ (versionDirs base).filter hasArtifact :=
          (List.perm_insertionSort nameGE _).mem_iff.mp hd1
        rw [List.mem_filter] at hd2
        obtain ⟨hv, hart⟩ := hd2
        rw [versionDirs, List.mem_filter] at hv
        obtain ⟨hent, hisv⟩ := hv
        rw [isVersionDir, Bool.and_eq_true] at hisv
        subst hp
        rw [pathExists, hex, Bool.true_and]
        rw [List.any_eq_true]
        refine ⟨d, hent, ?_⟩
        rw [Bool.and_eq_true, Bool.and_eq_true]
        exact ⟨⟨strEq_self d.name, hisv.1⟩, hart⟩

/-- Witness for C1 on the spec's own example: sibling version directories
v1.2.0 and v1.3.0, both containing the artifact, where the resolver agrees
with the spec-side walk, every returned path exists, and the returned path
is the one under v1.3.0. -/
theorem c1_witness :
    (find_extension_binary
        ⟨true, [⟨"v1.2.0", true, [artifactName]⟩, ⟨"v1.3.0", true, [artifactName]⟩]⟩ =
      resolveSpec
        ⟨true, [⟨"v1.2.0", true, [artifactName]⟩, ⟨"v1.3.0", true, [artifactName]⟩]⟩ ∧
     (∀ p,
        find_extension_binary
          ⟨true, [⟨"v1.2.0", true, [artifactName]⟩, ⟨"v1.3.0", true, [artifactName]⟩]⟩
          = some p →
        pathExists
          ⟨true, [⟨"v1.2.0", true, [artifactName]⟩, ⟨"v1.3.0", true, [artifactName]⟩]⟩
          p = true)) ∧
    find_extension_binary
      ⟨true, [⟨"v1.2.0", true, [artifactName]⟩, ⟨"v1.3.0", true, [artifactName]⟩]⟩
      = some ("v1.3.0", artifactName) :=
  ⟨c1_resolve_first_in_order
      ⟨true, [⟨"v1.2.0", true, [artifactName]⟩, ⟨"v1.3.0", true, [artifactName]⟩]⟩ rfl,
    by decide⟩

/-- C2: the ordering used by the resolver is plain descending string
comparison of the full tag name, not semantic-version comparison: the
sorted candidate list is descending under the code-point string order, the
string v1.10.0 compares below v1.9.0 textually, and for a base directory
holding exactly the siblings v1.9.0 and v1.10.0 (in either listing order),
both containing the artifact, the resolver returns the path under v1.9.0 —
the name that comes first in the descending plain-string order it uses. -/
theorem c2_textual_descending_order :
    (∀ l : List DirEntry, List.Sorted nameGE (sortVersionDirs l)) ∧
    pyLt "v1.10.0" "v1.9.0" = true ∧
    find_extension_binary
      ⟨true, [⟨"v1.9.0", true, [artifactName]⟩, ⟨"v1.10.0", true, [artifactName]⟩]⟩
      = some ("v1.9.0", artifactName) ∧
    find_extension_binary
      ⟨true, [⟨"v1.10.0", true, [artifactName]⟩, ⟨"v1.9.0", true, [artifactName]⟩]⟩
      = some ("v1.9.0", artifactName) :=
  ⟨fun l => List.sorted_insertionSort nameGE l, by decide, by decide, by decide⟩

/-- C3: a version directory that does not contain the artifact file is
skipped without error wherever it sits — removing it from the listing never
changes the result — and in the concrete case of a newest artifact-less
v2.0.0 beside a v1.9.0 containing the artifact, the resolver returns the
path under v1.9.0. -/
theorem c3_artifactless_skipped (e : Bool) (l1 l2 : List DirEntry) (d : DirEntry)
    (hno : hasArtifact d = false) :
    find_extension_binary ⟨e, l1 ++ d :: l2⟩ = find_extension_binary ⟨e, l1 ++ l2⟩ ∧
    find_extension_binary
      ⟨true, [⟨"v2.0.0", true, []⟩, ⟨"v1.9.0", true, [artifactName]⟩]⟩
      = some ("v1.9.0", artifactName) := by
  refine ⟨?_, by decide⟩
  rw [find_eq_sorted_filter, find_eq_sorted_filter]
  have key : (versionDirs ⟨e, l1 ++ d :: l2⟩).filter hasArtifact =
      (versionDirs ⟨e, l1 ++ l2⟩).filter hasArtifact := by
    simp only [versionDirs]
    rw [List.filter_filter, List.filter_filter]
    rw [List.filter_append, List.filter_append, List.filter_cons]
    simp [hno]
  rw [key]

/-- Witness for C3: dropping an artifact-less v1.9.5 from beside a v1.2.0
that has the artifact leaves the result unchanged, and the v2.0.0 / v1.9.0
example returns the path under v1.9.0. -/
theorem c3_witness :
    (find_extension_binary
        ⟨true, [⟨"v1.2.0", true, [artifactName]⟩, ⟨"v1.9.5", true, []⟩]⟩ =
      find_extension_binary ⟨true, [⟨"v1.2.0", true, [artifactName]⟩]⟩ ∧
     find_extension_binary
       ⟨true, [⟨"v2.0.0", true, []⟩, ⟨"v1.9.0", true, [artifactName]⟩]⟩
       = some ("v1.9.0", artifactName)) :=
  c3_artifactless_skipped true [⟨"v1.2.0", true, [artifactName]⟩] []
    ⟨"v1.9.5", true, []⟩ (by decide)

/-- C4: for every base directory that does not exist the resolver returns
NotFound (None) without raising and without performing a single
artifact-file existence check, whatever children the model would list. -/
theorem c4_missing_base_no_checks (es : List DirEntry) :
    find_extension_binary ⟨false, es⟩ = none ∧
    find_extension_binary_counting ⟨false, es⟩ = (none, 0) :=
  ⟨rfl, rfl⟩

/-- C5: for every existing base directory in which no kept version
directory contains the artifact — including one with no children at all —
the resolver returns NotFound (None). -/
theorem c5_no_qualifying_dir (base : BaseDir) (hex : base.exists' = true)
    (hno : ∀ d ∈ versionDirs base, hasArtifact d = false) :
    find_extension_binary base = none := by
  rw [find_eq_sorted_filter, if_pos hex]
  have key : (versionDirs base).filter hasArtifact = [] :=
    List.filter_eq_nil_iff.mpr (fun d hd => by simp [hno d hd])
  rw [key]
  rfl

/-- Witness for C5: a base directory whose only version directory lacks the
artifact (and whose other child is not a directory) resolves to None. -/
theorem c5_witness :
    find_extension_binary
      ⟨true, [⟨"v1.0.0", true, ["other.txt"]⟩, ⟨"readme", false, [artifactName]⟩]⟩
      = none :=
  c5_no_qualifying_dir
    ⟨true, [⟨"v1.0.0", true, ["other.txt"]⟩, ⟨"readme", false, [artifactName]⟩]⟩
    rfl (by decide)

/-- C6: a direct child that is not a directory, or whose name does not
begin with the version prefix v, is excluded from consideration entirely
regardless of its contents: removing it from the listing never changes the
result, and its presence never causes an error. -/
theorem c6_non_version_ignored (e : Bool) (l1 l2 : List DirEntry) (d : DirEntry)
    (hd : isVersionDir d = false) :
    find_extension_binary ⟨e, l1 ++ d :: l2⟩ = find_extension_binary ⟨e, l1 ++ l2⟩ := by
  unfold find_extension_binary
  have key : versionDirs ⟨e, l1 ++ d :: l2⟩ = versionDirs ⟨e, l1 ++ l2⟩ := by
    simp only [versionDirs]
    rw [List.filter_append, List.filter_append, List.filter_cons]
    simp [hd]
  rw [key]

/-- Witness for C6: an `archive` directory containing the artifact is
ignored — the result beside a v1.0.0 with the artifact is the same as
without it. -/
theorem c6_witness :
    find_extension_binary
      ⟨true, [⟨"archive", true, [artifactName]⟩, ⟨"v1.0.0", true, [artifactName]⟩]⟩ =
    find_extension_binary ⟨true, [⟨"v1.0.0", true, [artifactName]⟩]⟩ :=
  c6_non_version_ignored true [] [⟨"v1.0.0", true, [artifactName]⟩]
    ⟨"archive", true, [artifactName]⟩ (by decide)

lemma filterVersionDirsE_ok_sub (l vds : List EntryE)
    (h : filterVersionDirsE l = Except.ok vds) : ∀ d ∈ vds, d ∈ l := by
  induction l generalizing vds with
  | nil =>
      simp only [filterVersionDirsE, Except.ok.injEq] at h
      subst h
      intro d hd
      simp at hd
  | cons d ds ih =>
      cases hdir : d.is_dir with
      | error e => simp [filterVersionDirsE, hdir] at h
      | ok b =>
          simp only [filterVersionDirsE, hdir] at h
          cases hrest : filterVersionDirsE ds with
          | error e => rw [hrest] at h; simp at h
          | ok rest =>
              rw [hrest] at h
              simp only [Except.ok.injEq] at h
              subst h
              intro d' hd'
              by_cases hb : (b && pyStartsWith d.name "v") = true
              · rw [if_pos hb] at hd'
                rcases List.mem_cons.mp hd' with h1 | h1
                · exact h1 ▸ List.mem_cons_self d ds
                · exact List.mem_cons_of_mem d (ih rest hrest d' h1)
              · rw [if_neg hb] at hd'
                exact List.mem_cons_of_mem d (ih rest hrest d' hd')

lemma filterVersionDirsE_error_of_mem (l1 l2 : List EntryE) (d : EntryE)
    (e : String) (hok : ∀ d' ∈ l1, okB d'.is_dir = true)
    (hd : d.is_dir = Except.error e) :
    filterVersionDirsE (l1 ++ d :: l2) = Except.error e := by
  induction l1 with
  | nil => simp [filterVersionDirsE, hd]
  | cons a l1 ih =>
      have ha := hok a (List.mem_cons_self a l1)
      cases hdir : a.is_dir with
      | error e' => rw [hdir] at ha; simp [okB] at ha
      | ok b =>
          have hrest := ih (fun d' hd' => hok d' (List.mem_cons_of_mem a hd'))
          simp [filterVersionDirsE, hdir, hrest]

lemma scanE_error_of_prefix (L1 L2 : List EntryE) (d : EntryE) (e : String)
    (hfalse : ∀ d' ∈ L1, d'.artifact_exists = Except.ok false)
    (hd : d.artifact_exists = Except.error e) :
    scanE (L1 ++ d :: L2) = Except.error e := by
  induction L1 with
  | nil => simp [scanE, hd]
  | cons a L1 ih =>
      have ha := hfalse a (List.mem_cons_self a L1)
      have hrest := ih (fun d' hd' => hfalse d' (List.mem_cons_of_mem a hd'))
      simp [scanE, ha, hrest]

/-- C7: over the fallible filesystem the resolver never raises for the
not-installed case — whenever every primitive returns normally the outcome
is a normal return — and lower-level failures propagate as errors rather
than being swallowed or turned into NotFound: a failing base-existence
check or directory enumeration surfaces as exactly that error; a failing
`is_dir` check reached by the comprehension (every earlier listed child's
`is_dir` returned normally) surfaces as exactly that error; a failing
artifact `exists()` check reached by the scan (every earlier sorted
candidate's check returned a normal no) surfaces as exactly that error;
and any error outcome originates in one of the filesystem primitives the
code called, never in the resolver itself. -/
theorem c7_io_failures_propagate (fs : FSE) :
    (FSE.allOk fs = true → ∃ r, find_extension_binaryE fs = Except.ok r) ∧
    (∀ e, fs.base_exists = Except.error e →
        find_extension_binaryE fs = Except.error e) ∧
    (∀ e, fs.base_exists = Except.ok true → fs.iterdir = Except.error e →
        find_extension_binaryE fs = Except.error e) ∧
    (∀ e l1 d l2, fs.base_exists = Except.ok true →
        fs.iterdir = Except.ok (l1 ++ d :: l2) →
        (∀ d' ∈ l1, okB d'.is_dir = true) → d.is_dir = Except.error e →
        find_extension_binaryE fs = Except.error e) ∧
    (∀ e items vds L1 d L2, fs.base_exists = Except.ok true →
        fs.iterdir = Except.ok items →
        filterVersionDirsE items = Except.ok vds →
        List.insertionSort nameGEE vds = L1 ++ d :: L2 →
        (∀ d' ∈ L1, d'.artifact_exists = Except.ok false) →
        d.artifact_exists = Except.error e →
        find_extension_binaryE fs = Except.error e) ∧
    (∀ e, find_extension_binaryE fs = Except.error e →
        fs.base_exists = Except.error e ∨ fs.iterdir = Except.error e ∨
        (∃ l, fs.iterdir = Except.ok l ∧
          ∃ d ∈ l, d.is_dir = Except.error e ∨
            d.artifact_exists = Except.error e)) := by
  refine ⟨?_, ?_, ?_, ?_, ?_, ?_⟩
  · intro hok
    rw [FSE.allOk, Bool.and_eq_true] at hok
    obtain ⟨hb, hrest⟩ := hok
    cases hbase : fs.base_exists with
    | error e => rw [hbase] at hb; simp [okB] at hb
    | ok ex =>
        cases ex with
        | false => exact ⟨none, by simp [find_extension_binaryE, hbase]⟩
        | true =>
            cases hiter : fs.iterdir with
            | error e => rw [hiter] at hrest; simp at hrest
            | ok items =>
                rw [hiter] at hrest
                simp only [List.all_eq_true] at hrest
                obtain ⟨vds, hvds, hsub⟩ :=
                  filterVersionDirsE_ok_of_allOk items hrest
                by_cases hemp : vds.isEmpty = true
                · exact ⟨none, by
                    simp [find_extension_binaryE, hbase, hiter, hvds, hemp]⟩
                · obtain ⟨r, hr⟩ := scanE_ok_of_allOk
                    (List.insertionSort nameGEE vds) (fun d hd => by
                      have hd1 : d ∈ vds :=
                        (List.perm_insertionSort nameGEE vds).mem_iff.mp hd
                      have := hrest d (hsub d hd1)
                      rw [EntryE.allOk, Bool.and_eq_true] at this
                      exact this.2)
                  exact ⟨r, by
                    simp [find_extension_binaryE, hbase, hiter, hvds, hemp, hr]⟩
  · intro e he
    simp [find_extension_binaryE, he]
  · intro e hb he
    simp [find_extension_binaryE, hb, he]
  · intro e l1 d l2 hb hi hok hd
    simp [find_extension_binaryE, hb, hi,
      filterVersionDirsE_error_of_mem l1 l2 d e hok hd]
  · intro e items vds L1 d L2 hb hi hfilter hsort hfalse hd
    have hscan := scanE_error_of_prefix L1 L2 d e hfalse hd
    have hne : vds ≠ [] := by
      intro hnil
      rw [hnil] at hsort
      simp only [List.insertionSort] at hsort
      exact List.noConfusion ((List.nil_eq_append_iff.mp hsort).2)
    have hemp : ¬ vds.isEmpty = true := fun h => hne (List.isEmpty_iff.mp h)
    simp [find_extension_binaryE, hb, hi, hfilter, hemp, hsort, hscan]
  · intro e herr
    cases hbase : fs.base_exists with
    | error e' =>
        rw [find_extension_binaryE, hbase] at herr
        simp only [Except.error.injEq] at herr
        exact Or.inl (congrArg Except.error herr)
    | ok ex =>
        rw [find_extension_binaryE, hbase] at herr
        cases ex with
        | false => simp at herr
        | true =>
            simp only [Bool.not_true, Bool.false_eq_true, if_false, ite_false] at herr
            cases hiter : fs.iterdir with
            | error e' =>
                simp only [hiter, Except.error.injEq] at herr
                exact Or.inr (Or.inl (congrArg Except.error herr))
            | ok items =>
                simp only [hiter] at herr
                refine Or.inr (Or.inr ⟨items, rfl, ?_⟩)
                cases hvds : filterVersionDirsE items with
                | error e' =>
                    simp only [hvds, Except.error.injEq] at herr
                    obtain ⟨d, hd, hde⟩ := filterVersionDirsE_error items e' hvds
                    exact ⟨d, hd, Or.inl (hde.trans (congrArg Except.error herr))⟩
                | ok vds =>
                    simp only [hvds] at herr
                    by_cases hemp : vds.isEmpty = true
                    · rw [if_pos hemp] at herr; simp at herr
                    · rw [if_neg hemp] at herr
                      obtain ⟨d, hd, hde⟩ :=
                        scanE_error (List.insertionSort nameGEE vds) e herr
                      have hd1 : d ∈ vds :=
                        (List.perm_insertionSort nameGEE vds).mem_iff.mp hd
                      exact ⟨d, filterVersionDirsE_ok_sub items vds hvds d hd1,
                        Or.inr hde⟩

/-- C8: when the scan reports NotFound, `get_duckdb_connection` does not
fail immediately: it falls back to the hard-coded path
`~/.duckdb/extensions/stps/v1.4.3/stps.duckdb_extension`, loads it when the
`exists()` check on that path succeeds, and raises `FileNotFoundError` only
when that check fails too — so an artifact at exactly that path is loaded
even though auto-detection found nothing. -/
theorem c8_fallback_path (base : BaseDir) (fb : Bool)
    (h : find_extension_binary base = none) :
    (fb = true → get_duckdb_connection base fb = ConnResult.loaded fallbackPath) ∧
    (fb = false → get_duckdb_connection base fb = ConnResult.fileNotFound) ∧
    fullPathParts fallbackPath =
      [".duckdb", "extensions", "stps", "v1.4.3", "stps.duckdb_extension"] := by
  refine ⟨?_, ?_, rfl⟩ <;> intro hfb <;> subst hfb <;>
    simp [get_duckdb_connection, h]

/-- Witness for C8 at a base directory with no children: with the fallback
file on disk the fallback path is loaded, without it the outcome is
`FileNotFoundError`. -/
theorem c8_witness :
    get_duckdb_connection ⟨true, []⟩ true = ConnResult.loaded fallbackPath ∧
    get_duckdb_connection ⟨true, []⟩ false = ConnResult.fileNotFound :=
  ⟨(c8_fallback_path ⟨true, []⟩ true rfl).1 rfl,
    (c8_fallback_path ⟨true, []⟩ false rfl).2.1 rfl⟩

/-- C9: the resolver is deterministic and idempotent — equal filesystem
states and inputs give equal results — and with exactly one version
directory v1.4.3 containing the artifact (whatever other files lie beside
it in that directory) every call returns that path. -/
theorem c9_deterministic (b1 b2 : BaseDir) (h : b1 = b2) (fs : List String)
    (hart : artifactName ∈ fs) :
    find_extension_binary b1 = find_extension_binary b2 ∧
    find_extension_binary ⟨true, [⟨"v1.4.3", true, fs⟩]⟩
      = some ("v1.4.3", artifactName) := by
  constructor
  · rw [h]
  · rw [find_eq_sorted_filter, if_pos rfl]
    have hart' : hasArtifact ⟨"v1.4.3", true, fs⟩ = true := by
      rw [hasArtifact, List.any_eq_true]
      exact ⟨artifactName, hart, strEq_self artifactName⟩
    have hv : isVersionDir ⟨"v1.4.3", true, fs⟩ = true := by
      show (true && pyStartsWith "v1.4.3" "v") = true
      decide
    simp [versionDirs, List.filter_cons, hv, hart', sortVersionDirs,
      List.insertionSort]

/-- Witness for C9: two syntactically equal singleton bases resolve
equally, and the single v1.4.3 directory containing just the artifact
resolves to its path. -/
theorem c9_witness :
    find_extension_binary ⟨true, [⟨"v1.4.3", true, [artifactName]⟩]⟩ =
      find_extension_binary ⟨true, [⟨"v1.4.3", true, [artifactName]⟩]⟩ ∧
    find_extension_binary ⟨true, [⟨"v1.4.3", true, [artifactName]⟩]⟩
      = some ("v1.4.3", artifactName) :=
  c9_deterministic ⟨true, [⟨"v1.4.3", true, [artifactName]⟩]⟩
    ⟨true, [⟨"v1.4.3", true, [artifactName]⟩]⟩ rfl [artifactName]
    (List.mem_singleton.mpr rfl)

/-- C10: the resolver has no side effects: threaded through the filesystem
state, with each of its filesystem calls an explicit state operation, it
returns the state it was given unchanged and computes the same result as
the pure function. -/
theorem c10_no_side_effects (s : BaseDir) :
    (find_extension_binary_st s).2 = s ∧
    (find_extension_binary_st s).1 = find_extension_binary s := by
  have hst : find_extension_binary_st s = (find_extension_binary s, s) := by
    unfold find_extension_binary_st find_extension_binary versionDirs
    simp only [fsExists, fsIterdir, filterVersionDirsST_eq, scanST_eq]
    by_cases hex : (!s.exists') = true
    · rw [if_pos hex, if_pos hex]
    · rw [if_neg hex, if_neg hex]
      by_cases hemp : (s.entries.filter isVersionDir).isEmpty = true
      · rw [if_pos hemp, if_pos hemp]
      · rw [if_neg hemp, if_neg hemp]
  rw [hst]
  exact ⟨rfl, rfl⟩

end DuckdbHelpers
